import Mathlib

/-!
Verification of the negotiation agent in `fdi_pln_2612_p1/main.py`: the
protocol codec that embeds offers/acceptances in free-text mail bodies,
the anti-spam rate limiter, the mailbox lifecycle, the automatic
acceptance-settlement pass and the fallback decision engine.

Strings are modelled as `List Char`.  Python regular-expression searches
are modelled by purpose-written backtracking matchers that follow the
exact patterns compiled in the source (leftmost match, lazy/greedy
priority, case-insensitive matching modelled by ASCII/iberian case
folding).  `json.loads` is modelled by an object parser restricted to
integer values: the agent's protocol only ever carries one-entry
`{"item": qty}` objects, and every payload a claim exercises is of that
shape; payloads the model rejects are treated as parse failures, which
the callers catch exactly like a Python `json.JSONDecodeError`.
-/

set_option maxHeartbeats 1000000

abbrev Str := List Char

/-- Python `\s` (ASCII fragment): the whitespace characters relevant here. -/
def isPySpace (c : Char) : Bool := c ∈ [' ', '\t', '\n', '\r', '\x0b', '\x0c']

/-- Whitespace accepted between JSON tokens by `json.loads`. -/
def isJsonWs (c : Char) : Bool := c ∈ [' ', '\t', '\n', '\r']

def skipWs (s : Str) : Str := s.dropWhile isJsonWs

/-- The uppercase-to-lowercase table behind Python `str.lower()`, for the
alphabet the agent's messages use (ASCII letters plus the accented
letters admitted by the fallback offer pattern). -/
def lowerPairs : List (Char × Char) :=
  [('A', 'a'), ('B', 'b'), ('C', 'c'), ('D', 'd'), ('E', 'e'), ('F', 'f'),
   ('G', 'g'), ('H', 'h'), ('I', 'i'), ('J', 'j'), ('K', 'k'), ('L', 'l'),
   ('M', 'm'), ('N', 'n'), ('O', 'o'), ('P', 'p'), ('Q', 'q'), ('R', 'r'),
   ('S', 's'), ('T', 't'), ('U', 'u'), ('V', 'v'), ('W', 'w'), ('X', 'x'),
   ('Y', 'y'), ('Z', 'z'), ('Á', 'á'), ('É', 'é'), ('Í', 'í'), ('Ó', 'ó'),
   ('Ú', 'ú'), ('Ñ', 'ñ')]

/-- Python `str.lower()` on one character. -/
def pyLowerChar (c : Char) : Char :=
  (((lowerPairs.find? (fun p => p.1 = c)).map (fun p => p.2)).getD c)

/-- Python `str.lower()`. -/
def pyLower (s : Str) : Str := s.map pyLowerChar

/-- Python `str.strip()` (ASCII whitespace fragment). -/
def pyStrip (s : Str) : Str :=
  ((s.dropWhile isPySpace).reverse.dropWhile isPySpace).reverse

/-- One decimal digit, as printed by Python `str(int)`. -/
def digitChar : Nat → Char
  | 0 => '0' | 1 => '1' | 2 => '2' | 3 => '3' | 4 => '4'
  | 5 => '5' | 6 => '6' | 7 => '7' | 8 => '8' | _ => '9'

def digitVal (c : Char) : Nat := c.toNat - 48

/-- Numeric value of a digit string, as computed by Python `int(...)`
on a `\d+` match. -/
def digitsVal (s : Str) : Nat := s.foldl (fun a c => a * 10 + digitVal c) 0

/-- Decimal rendering of a natural number (Python `str(n)` / `json.dumps(n)`
for the nonnegative quantities the agent emits). -/
def natToDigits (n : Nat) : Str :=
  if n < 10 then [digitChar n]
  else natToDigits (n / 10) ++ [digitChar (n % 10)]
  termination_by n
  decreasing_by exact Nat.div_lt_self (by omega) (by omega)

/-- A Python `dict` as the agent uses it: insertion-ordered association
list from item name to integer quantity. -/
abbrev PyDict := List (Str × Int)

/-- `d.get(k, default)`. -/
def dget (m : PyDict) (k : Str) (dflt : Int) : Int :=
  match m.find? (fun p => p.1 = k) with
  | some p => p.2
  | none => dflt

/-- `k in d`. -/
def dmem (m : PyDict) (k : Str) : Bool := m.any (fun p => p.1 = k)

/-- `d[k] = v`: update in place if the key exists, else append. -/
def dinsert (m : PyDict) (k : Str) (v : Int) : PyDict :=
  if m.any (fun p => p.1 = k) then
    m.map (fun p => if p.1 = k then (k, v) else p)
  else m ++ [(k, v)]

/-- JSON string-literal body after the opening quote: plain characters up
to the closing quote.  Backslash escapes are not modelled (no protocol
key ever contains one); a backslash is a parse failure. -/
def parseJStr : Str → Option (Str × Str)
  | [] => none
  | c :: cs =>
    if c = '"' then some ([], cs)
    else if c = '\\' then none
    else (parseJStr cs).map (fun r => (c :: r.1, r.2))

/-- A maximal run of decimal digits that is not followed by a fraction or
exponent marker (those would make the value a float, which the model
rejects, see the header note). -/
def parseDigitsChunk (s : Str) : Option (Nat × Str) :=
  let ds := s.takeWhile Char.isDigit
  let r := s.dropWhile Char.isDigit
  if ds.isEmpty then none
  else if r.headD ' ' ∈ ['.', 'e', 'E'] then none
  else some (digitsVal ds, r)

/-- A JSON integer, possibly negative. -/
def parseJInt (s : Str) : Option (Int × Str) :=
  if s.headD ' ' = '-' then
    (parseDigitsChunk s.tail).map (fun r => (-(r.1 : Int), r.2))
  else
    (parseDigitsChunk s).map (fun r => ((r.1 : Int), r.2))

/-- Members of a JSON object, after the opening brace; consumes the
closing brace.  `fuel` dominates the input length. -/
def parseMembersAux : Nat → PyDict → Str → Option (PyDict × Str)
  | 0, _, _ => none
  | fuel + 1, acc, s =>
    match skipWs s with
    | '"' :: rest =>
      match parseJStr rest with
      | none => none
      | some (key, r1) =>
        match skipWs r1 with
        | ':' :: r3 =>
          match parseJInt (skipWs r3) with
          | none => none
          | some (v, r5) =>
            match skipWs r5 with
            | ',' :: r7 => parseMembersAux fuel (dinsert acc key v) r7
            | '}' :: r8 => some (dinsert acc key v, r8)
            | _ => none
        | _ => none
    | _ => none

/-- `json.loads` on the tagged-protocol payloads (JSON objects with
integer values; anything else is a parse failure the callers catch). -/
def json_loads (s : Str) : Except Unit PyDict :=
  match skipWs s with
  | '{' :: rest =>
    match skipWs rest with
    | '}' :: r2 => if skipWs r2 = [] then .ok [] else .error ()
    | _ =>
      match parseMembersAux (rest.length + 1) [] rest with
      | some (d, r2) => if skipWs r2 = [] then .ok d else .error ()
      | none => .error ()
  | _ => .error ()

/-- `json.dumps({k: v})` for a single-entry dict with an escape-free key
and a nonnegative quantity, exactly as `build_offer_body` produces it. -/
def json_dumps_single (k : Str) (v : Nat) : Str :=
  '{' :: '"' :: (k ++ ('"' :: ':' :: ' ' :: (natToDigits v ++ ['}'])))

/-!  ## The compiled regular expressions of the codec

`TAG_OFFER_RE  = \[OFERTA_V1\]\s*quiero=(\{.*?\})\s*ofrezco=(\{.*?\})`   (IGNORECASE)
`TAG_ACCEPT_RE = \[ACEPTO_V1\]\s*te_envio=(\{.*?\})\s*espero=(\{.*?\})`  (IGNORECASE)
`OFFER_RE = necesit[oa]\s+(\d+)\s+([a-zA-ZáéíóúñÑ]+).*?ofrezc[oa]\s+(\d+)\s+([a-zA-ZáéíóúñÑ]+)`
(IGNORECASE | DOTALL)
-/

/-- Match a literal pattern fragment case-insensitively, returning the rest
of the input. -/
def matchLitCI : Str → Str → Option Str
  | [], s => some s
  | _ :: _, [] => none
  | p :: ps, c :: cs => if pyLowerChar c = pyLowerChar p then matchLitCI ps cs else none

/-- Greedy `\s*`.  Every literal that follows `\s*` in the compiled
patterns starts with a non-space character, so maximal munch needs no
backtracking. -/
def dropSpaces (s : Str) : Str := s.dropWhile isPySpace

def expectChar (c : Char) : Str → Option Str
  | [] => none
  | x :: xs => if x = c then some xs else none

/-- Lazy `.*?` (no DOTALL) followed by a literal `\}` followed by the
continuation `k`: the shortest newline-free run of characters after which
a closing brace and then `k` succeed.  Returns the captured run (without
the braces) and the continuation's result. -/
def lazyToBrace (k : Str → Option α) : Str → Option (Str × α)
  | [] => none
  | c :: cs =>
    match (if c = '}' then (k cs).map (fun a => (([] : Str), a)) else none) with
    | some r => some r
    | none =>
      if c = '\n' then none
      else (lazyToBrace k cs).map (fun r => (c :: r.1, r.2))

/-- Attempt `TAG_OFFER_RE` at the current position; on success returns the
two captured groups (braces included, as Python's `m.group(i)` does). -/
def tagOfferAt (s : Str) : Option (Str × Str) :=
  (matchLitCI "[OFERTA_V1]".toList s).bind (fun s1 =>
    (matchLitCI "quiero=".toList (dropSpaces s1)).bind (fun s2 =>
      (expectChar '{' s2).bind (fun s3 =>
        (lazyToBrace (fun rest =>
          (matchLitCI "ofrezco=".toList (dropSpaces rest)).bind (fun r2 =>
            (expectChar '{' r2).bind (fun r3 =>
              (lazyToBrace (fun _ => some ()) r3).map (fun g => g.1)))) s3).map
          (fun g => ('{' :: (g.1 ++ ['}']), '{' :: (g.2 ++ ['}']))))))

/-- `TAG_OFFER_RE.search`: try every position left to right. -/
def searchTagOffer : Str → Option (Str × Str)
  | [] => none
  | c :: cs =>
    match tagOfferAt (c :: cs) with
    | some r => some r
    | none => searchTagOffer cs

/-- Attempt `TAG_ACCEPT_RE` at the current position. -/
def tagAcceptAt (s : Str) : Option (Str × Str) :=
  (matchLitCI "[ACEPTO_V1]".toList s).bind (fun s1 =>
    (matchLitCI "te_envio=".toList (dropSpaces s1)).bind (fun s2 =>
      (expectChar '{' s2).bind (fun s3 =>
        (lazyToBrace (fun rest =>
          (matchLitCI "espero=".toList (dropSpaces rest)).bind (fun r2 =>
            (expectChar '{' r2).bind (fun r3 =>
              (lazyToBrace (fun _ => some ()) r3).map (fun g => g.1)))) s3).map
          (fun g => ('{' :: (g.1 ++ ['}']), '{' :: (g.2 ++ ['}']))))))

/-- `TAG_ACCEPT_RE.search`. -/
def searchTagAccept : Str → Option (Str × Str)
  | [] => none
  | c :: cs =>
    match tagAcceptAt (c :: cs) with
    | some r => some r
    | none => searchTagAccept cs

/-- The character class `[a-zA-ZáéíóúñÑ]` under IGNORECASE (which also
admits the uppercase accented vowels). -/
def isOfferLetter (c : Char) : Bool :=
  c.isAlpha ∨ c ∈ ['á', 'é', 'í', 'ó', 'ú', 'ñ', 'Ñ', 'Á', 'É', 'Í', 'Ó', 'Ú']

/-- `[oa]` under IGNORECASE. -/
def matchOA : Str → Option Str
  | [] => none
  | c :: cs => if pyLowerChar c = 'o' ∨ pyLowerChar c = 'a' then some cs else none

/-- Greedy `\s+`.  In `OFFER_RE` every `\s+` is followed by `\d+` or by the
letter class, neither of which admits a space, so maximal munch is exact. -/
def matchSpaces1 : Str → Option Str
  | [] => none
  | c :: cs => if isPySpace c then some (cs.dropWhile isPySpace) else none

/-- Greedy `(\d+)` followed (in `OFFER_RE`) by `\s`, so maximal munch is
exact.  Returns the captured digits and the rest. -/
def matchDigits1 (s : Str) : Option (Str × Str) :=
  let ds := s.takeWhile Char.isDigit
  if ds.isEmpty then none else some (ds, s.dropWhile Char.isDigit)

/-- Greedy `([class]+)` with full backtracking into the continuation `k`:
prefers the longest capture for which `k` succeeds on the remainder. -/
def greedyPlusCont (p : Char → Bool) (k : Str → Option α) : Str → Option (Str × α)
  | [] => none
  | c :: cs =>
    if p c then
      match greedyPlusCont p k cs with
      | some r => some (c :: r.1, r.2)
      | none =>
        match k cs with
        | some a => some ([c], a)
        | none => none
    else none

/-- Lazy `.*?` under DOTALL followed by the continuation `k`: the earliest
position at which `k` succeeds. -/
def lazyStarD (k : Str → Option α) : Str → Option α
  | [] => k []
  | c :: cs =>
    match k (c :: cs) with
    | some a => some a
    | none => lazyStarD k cs

/-- The tail of `OFFER_RE` after the lazy gap:
`ofrezc[oa]\s+(\d+)\s+([class]+)`; the final greedy group ends the
pattern, so it is a maximal munch. -/
def offerTail (s : Str) : Option (Str × Str) :=
  (matchLitCI "ofrezc".toList s).bind (fun s1 =>
    (matchOA s1).bind (fun s2 =>
      (matchSpaces1 s2).bind (fun s3 =>
        (matchDigits1 s3).bind (fun g3 =>
          (matchSpaces1 g3.2).bind (fun s5 =>
            let g4 := s5.takeWhile isOfferLetter
            if g4.isEmpty then none else some (g3.1, g4))))))

/-- Attempt `OFFER_RE` at the current position; returns the four captured
groups `(\d+, [class]+, \d+, [class]+)`. -/
def offerFallbackAt (s : Str) : Option (Str × Str × Str × Str) :=
  (matchLitCI "necesit".toList s).bind (fun s1 =>
    (matchOA s1).bind (fun s2 =>
      (matchSpaces1 s2).bind (fun s3 =>
        (matchDigits1 s3).bind (fun g1 =>
          (matchSpaces1 g1.2).bind (fun s5 =>
            (greedyPlusCont isOfferLetter (lazyStarD offerTail) s5).map (fun r =>
              (g1.1, r.1, r.2.1, r.2.2)))))))

/-- `OFFER_RE.search`. -/
def searchOfferFallback : Str → Option (Str × Str × Str × Str)
  | [] => none
  | c :: cs =>
    match offerFallbackAt (c :: cs) with
    | some r => some r
    | none => searchOfferFallback cs

/-!  ## Protocol codec (`build_offer_body`, `parse_offer_from_text`,
`parse_accept_from_text`) -/

/-- `build_offer_body(need_item, need_qty, offer_item, offer_qty)`:
a tagged machine-readable line, a newline, and a prose restatement.
Quantities are the positive integers the callers pass. -/
def build_offer_body (need_item : Str) (need_qty : Nat)
    (offer_item : Str) (offer_qty : Nat) : Str :=
  "[OFERTA_V1] quiero=".toList ++ json_dumps_single need_item need_qty
    ++ " ofrezco=".toList ++ json_dumps_single offer_item offer_qty
    ++ ('\n' :: "Necesito ".toList) ++ natToDigits need_qty
    ++ (' ' :: need_item) ++ " y ofrezco ".toList ++ natToDigits offer_qty
    ++ (' ' :: offer_item) ++ ['.']

/-- The natural-language fallback branch of `parse_offer_from_text`
(`OFFER_RE` match, `int(...)` on the digit groups, `.lower()` on the item
groups). -/
def fallbackOffer (t : Str) : Except Unit (Option (PyDict × PyDict)) :=
  match searchOfferFallback t with
  | some (d1, it1, d2, it2) =>
    .ok (some ([(pyLower it1, (digitsVal d1 : Int))],
               [(pyLower it2, (digitsVal d2 : Int))]))
  | none => .ok none

/-- `parse_offer_from_text`, with the Python exception channel made
explicit: a `.error` would be an uncaught exception escaping the
function.  The `try/except` around `json.loads` appears as the fall
through to `fallbackOffer` on a `.error` payload. -/
def parse_offer_from_textE (texto : Str) : Except Unit (Option (PyDict × PyDict)) :=
  match searchTagOffer texto with
  | some (g1, g2) =>
    match json_loads g1, json_loads g2 with
    | .ok quiero, .ok ofrezco => .ok (some (quiero, ofrezco))
    | _, _ => fallbackOffer texto
  | none => fallbackOffer texto

def parse_offer_from_text (texto : Str) : Option (PyDict × PyDict) :=
  match parse_offer_from_textE texto with
  | .ok r => r
  | .error _ => none

/-- `parse_accept_from_text`: tagged form only, JSON failures caught and
turned into `None`. -/
def parse_accept_from_textE (texto : Str) : Except Unit (Option (PyDict × PyDict)) :=
  match searchTagAccept texto with
  | none => .ok none
  | some (g1, g2) =>
    match json_loads g1, json_loads g2 with
    | .ok te_envio, .ok espero => .ok (some (te_envio, espero))
    | _, _ => .ok none

def parse_accept_from_text (texto : Str) : Option (PyDict × PyDict) :=
  match parse_accept_from_textE texto with
  | .ok r => r
  | .error _ => none

/-!  ## Data model: state snapshot, mail, configuration, effects -/

/-- One mailbox message (`remi`, `asunto`, `cuerpo`). -/
structure Mail where
  remi : Str
  asunto : Str
  cuerpo : Str
deriving DecidableEq, Repr

/-- The state snapshot the engine works on (`InfoPuesto`); the mailbox is
handled separately as an insertion-ordered id-keyed dict. -/
structure InfoPuesto where
  Recursos : PyDict
  Objetivo : PyDict
deriving DecidableEq, Repr

/-- The environment-derived configuration of the agent process. -/
structure Config where
  cleanInbox : Bool
  maxMails : Nat
  acceptAny : Bool
  allowBreakObjective : Bool
  offerCooldownPerDest : ℚ
  offerCooldownGlobal : ℚ
  badDestSeconds : ℚ
  aliasName : Str
deriving DecidableEq

/-- Free text of an outgoing letter body; the Python f-string renderings
are kept symbolic, only their identity matters to the claims. -/
inductive CartaBody where
  | listo (espero : PyDict)
  | noTengo (espero : PyDict)
  | texto (s : Str)
deriving DecidableEq, Repr

/-- A broker side effect requested during a cycle. -/
inductive Effect where
  | borrar (mid : Str)
  | paquete (dest : Str) (items : PyDict)
  | carta (dest : Str) (asunto : Str) (cuerpo : CartaBody)
deriving DecidableEq, Repr

/-- A mailbox working copy: insertion-ordered `id -> Mail`. -/
abbrev Mailbox := List (Str × Mail)

/-- `mails_by_id.pop(mid, None)`: ids are unique in a Python dict, so
removal is a filter on the id. -/
def popKey (m : Mailbox) (k : Str) : Mailbox := m.filter (fun p => p.1 ≠ k)

/-!  ## Heuristics (`faltantes`, `excedentes`, `can_give`) -/

/-- `faltantes(estado)`: objective items held strictly below target. -/
def faltantes (estado : InfoPuesto) : PyDict :=
  estado.Objetivo.foldl (fun f p =>
    let cur := dget estado.Recursos p.1 0
    if cur < p.2 then dinsert f p.1 (p.2 - cur) else f) []

/-- `excedentes(estado)`: held items other than `oro` in excess of their
objective, and untargeted held items in full. -/
def excedentes (estado : InfoPuesto) : PyDict :=
  estado.Recursos.foldl (fun exc p =>
    if p.1 = "oro".toList then exc
    else
      let obj := dget estado.Objetivo p.1 0
      let exc1 := if p.2 > obj then dinsert exc p.1 (p.2 - obj) else exc
      if ¬dmem estado.Objetivo p.1 ∧ p.2 > 0 then
        dinsert exc1 p.1 (max (dget exc1 p.1 0) p.2)
      else exc1) []

/-- `can_give(estado, item, qty)`. -/
def can_give (cfg : Config) (estado : InfoPuesto) (item : Str) (qty : Int) : Bool :=
  let have0 := dget estado.Recursos item 0
  if have0 < qty then false
  else if cfg.allowBreakObjective then true
  else (have0 - dget estado.Objetivo item 0) ≥ qty

/-!  ## Anti-spam rate limiter -/

/-- Timestamp-valued dict (`dict[str, float]`). -/
abbrev TsDict := List (Str × ℚ)

def tsGet (m : TsDict) (k : Str) : Option ℚ :=
  (m.find? (fun p => p.1 = k)).map (fun p => p.2)

def tsSet (m : TsDict) (k : Str) (v : ℚ) : TsDict :=
  if m.any (fun p => p.1 = k) then
    m.map (fun p => if p.1 = k then (k, v) else p)
  else m ++ [(k, v)]

/-- The process-wide rate-limiter memory. -/
structure LimiterState where
  lastOfferTsGlobal : ℚ
  lastOfferTsDest : TsDict
  badDestUntil : TsDict
deriving DecidableEq

/-- `can_send_offer_now(dest)` evaluated at time `now`. -/
def can_send_offer_now (cfg : Config) (st : LimiterState) (dest : Str) (now : ℚ) : Bool :=
  if (match tsGet st.badDestUntil dest with
      | some b => decide (now < b)
      | none => false) then false
  else if now - st.lastOfferTsGlobal < cfg.offerCooldownGlobal then false
  else if now - (tsGet st.lastOfferTsDest dest).getD 0 < cfg.offerCooldownPerDest then false
  else true

/-- `mark_offer_sent(dest)` at time `now`. -/
def mark_offer_sent (st : LimiterState) (dest : Str) (now : ℚ) : LimiterState :=
  { st with lastOfferTsGlobal := now, lastOfferTsDest := tsSet st.lastOfferTsDest dest now }

/-- `enviar_carta`: the transport outcome is an oracle (`none` = request
exception after retries, `some status` = HTTP status).  A failure
blacklists the destination until `now + badDestSeconds` and returns
`false`. -/
def enviar_carta (cfg : Config) (st : LimiterState) (dest : Str) (now : ℚ)
    (resp : Option Nat) : Bool × LimiterState :=
  match resp with
  | none =>
    (false, { st with badDestUntil := tsSet st.badDestUntil dest (now + cfg.badDestSeconds) })
  | some status =>
    if status = 200 then (true, st)
    else (false, { st with badDestUntil := tsSet st.badDestUntil dest (now + cfg.badDestSeconds) })

/-!  ## Automatic acceptance settlement (`procesar_mails_automaticos`)

Transport outcomes of the letters/packages sent here do not influence the
control flow (the source discards the return values), so sends are
recorded as effects; `estado_cache["recursos"]` is the `recursos`
argument, set from the same cycle's snapshot. -/

/-- One iteration of the `procesar_mails_automaticos` loop, acting on the
working mailbox and the accumulated effect list. -/
def procesarStep (cfg : Config) (recursos : PyDict)
    (acc : Mailbox × List Effect) (entry : Str × Mail) : Mailbox × List Effect :=
  let mid := entry.1
  let remi := pyStrip entry.2.remi
  let cuerpo := pyStrip entry.2.cuerpo
  if pyLower remi = "sistema".toList then
    if cfg.cleanInbox then (popKey acc.1 mid, acc.2 ++ [.borrar mid]) else acc
  else
    match parse_accept_from_text cuerpo with
    | some (_te_envio, espero) =>
      if remi ≠ [] then
        let ok_send := espero.all (fun p => ¬(dget recursos p.1 0 < p.2))
        let eff2 :=
          if ok_send then
            acc.2 ++ [.paquete remi espero, .carta remi "Envío".toList (.listo espero)]
          else
            acc.2 ++ [.carta remi "No puedo".toList (.noTengo espero)]
        if cfg.cleanInbox then (popKey acc.1 mid, eff2 ++ [.borrar mid])
        else (acc.1, eff2)
      else acc
    | none => acc

/-- `procesar_mails_automaticos(mails_by_id)`: iterates over a snapshot
of the incoming mailbox (`list(mails_by_id.items())`), mutating the
working copy as it goes.  Returns the surviving mailbox and the effects. -/
def procesar_mails_automaticos (cfg : Config) (recursos : PyDict)
    (mails : Mailbox) : Mailbox × List Effect :=
  mails.foldl (procesarStep cfg recursos) (mails, [])

/-!  ## Decision engine (`decidir_fallback`) -/

/-- The single action of a `Decision`. -/
inductive Accion where
  | esperar
  | ofertar (dest : Str) (need_recurso : Str) (need_cantidad : Int)
      (offer_recurso : Str) (offer_cantidad : Int)
  | aceptar (mensaje_id : Str)
deriving DecidableEq, Repr

/-- A `Decision`; the free-text `razonamiento` field is cosmetic and not
modelled. -/
structure Decision where
  accion : Accion
deriving DecidableEq, Repr

/-- The injected randomness: `random.shuffle` of the candidate peers and
the two `random.choice` calls of the offer selection. -/
structure RandSrc where
  shuffle : List Str → List Str
  choiceNeed : List Str → Str
  choiceOffer : List Str → Str

/-- `max(d, key=lambda k: d[k])`: first key of maximal value in iteration
order (later entries replace only on strictly greater value). -/
def argmaxKey (d : PyDict) : Str :=
  (d.foldl (fun best p => if p.2 > best.2 then p else best) (d.headD ([], 0))).1

/-- The mailbox-capacity step of `decidir_fallback`: when cleaning is on
and the box exceeds `maxMails`, every id beyond the first `maxMails` in
iteration order is deleted. -/
def enforceCapacity (clean : Bool) (maxMails : Nat) (m : Mailbox) :
    Mailbox × List Effect :=
  if clean ∧ m.length > maxMails then
    (((m.map Prod.fst).drop maxMails).foldl popKey m,
     ((m.map Prod.fst).drop maxMails).map .borrar)
  else (m, [])

/-- The incoming-offer scan of `decidir_fallback` (step 1 in the source),
iterating over a snapshot of the working mailbox.  `.error` is the
`ValueError` Python raises when destructuring a decoded offer that does
not have exactly one entry per side; it escapes `decidir_fallback` and is
caught by the cycle driver. -/
def scanLoop (cfg : Config) (estado : InfoPuesto) (f : PyDict) :
    List (Str × Mail) → Mailbox → List Effect →
    Except Unit (Option Str × Mailbox × List Effect)
  | [], m, eff => .ok (none, m, eff)
  | entry :: rest, m, eff =>
    let mid := entry.1
    let remi := pyStrip entry.2.remi
    let cuerpo := pyStrip entry.2.cuerpo
    if remi = [] ∨ remi = cfg.aliasName then scanLoop cfg estado f rest m eff
    else
      match parse_offer_from_text cuerpo with
      | none => scanLoop cfg estado f rest m eff
      | some (quiero, ofrezco) =>
        match quiero, ofrezco with
        | [(need_item, need_qty)], [(offer_item, offer_qty)] =>
          let _ := offer_qty
          if ¬can_give cfg estado need_item need_qty then
            if cfg.cleanInbox then
              scanLoop cfg estado f rest (popKey m mid) (eff ++ [.borrar mid])
            else scanLoop cfg estado f rest m eff
          else if cfg.acceptAny ∨ dget f offer_item 0 > 0 then
            .ok (some mid, m, eff)
          else
            if cfg.cleanInbox then
              scanLoop cfg estado f rest (popKey m mid) (eff ++ [.borrar mid])
            else scanLoop cfg estado f rest m eff
        | _, _ => .error ()

/-- `decidir_fallback(estado, gente, mails_by_id)` at time `now` with
limiter state `lim`.  Returns the decision, the surviving working
mailbox and the deletion effects. -/
def decidir_fallback (cfg : Config) (rand : RandSrc) (now : ℚ) (lim : LimiterState)
    (estado : InfoPuesto) (gente : List Str) (mails : Mailbox) :
    Except Unit (Decision × Mailbox × List Effect) :=
  let f := faltantes estado
  let exc := excedentes estado
  let cap := enforceCapacity cfg.cleanInbox cfg.maxMails mails
  match scanLoop cfg estado f cap.1 cap.1 [] with
  | .error e => .error e
  | .ok (some mid, m2, eff2) => .ok (⟨.aceptar mid⟩, m2, cap.2 ++ eff2)
  | .ok (none, m2, eff2) =>
    let otros := gente.filter (fun a => a ≠ cfg.aliasName)
    if otros.isEmpty then .ok (⟨.esperar⟩, m2, cap.2 ++ eff2)
    else
      let shuffled := rand.shuffle otros
      match shuffled.find? (fun cand => can_send_offer_now cfg lim cand now) with
      | none => .ok (⟨.esperar⟩, m2, cap.2 ++ eff2)
      | some dest =>
        let need_item :=
          if f ≠ [] then argmaxKey f
          else rand.choiceNeed
            (if (estado.Recursos.map Prod.fst).isEmpty then ["madera".toList]
             else estado.Recursos.map Prod.fst)
        let offer_item : Option Str :=
          if exc ≠ [] then some (argmaxKey exc)
          else
            let cand_items := (estado.Recursos.filter
              (fun p => p.2 ≥ 1 ∧ can_give cfg estado p.1 1)).map Prod.fst
            if cand_items.isEmpty then none else some (rand.choiceOffer cand_items)
        match offer_item with
        | none => .ok (⟨.esperar⟩, m2, cap.2 ++ eff2)
        | some oi =>
          if oi = need_item then .ok (⟨.esperar⟩, m2, cap.2 ++ eff2)
          else .ok (⟨.ofertar dest need_item 1 oi 1⟩, m2, cap.2 ++ eff2)

/-!  ## Executing an offer decision (`ejecutar_decision`, `ofertar` branch) -/

/-- The field bag of an `ofertar` action (`accion.get(...)`; a missing
string field is the empty string, matching Python falsiness). -/
structure OfertarFields where
  dest : Str
  need_recurso : Str
  need_cantidad : Int
  offer_recurso : Str
  offer_cantidad : Int
deriving DecidableEq

/-- The `tipo == "ofertar"` branch of `ejecutar_decision`: re-checks the
rate limiter, sends the letter, and marks the cooldowns only when the
send succeeded (`resp` is the transport oracle of `enviar_carta`). -/
def ejecutar_ofertar (cfg : Config) (lim : LimiterState) (now : ℚ)
    (a : OfertarFields) (resp : Option Nat) : LimiterState × List Effect :=
  if a.dest = [] ∨ a.need_recurso = [] ∨ a.offer_recurso = []
      ∨ a.need_cantidad ≤ 0 ∨ a.offer_cantidad ≤ 0 then (lim, [])
  else if ¬can_send_offer_now cfg lim a.dest now then (lim, [])
  else
    let cuerpo := build_offer_body a.need_recurso a.need_cantidad.toNat
      a.offer_recurso a.offer_cantidad.toNat
    let sent := enviar_carta cfg lim a.dest now resp
    let eff := [Effect.carta a.dest "Oferta".toList (.texto cuerpo)]
    if sent.1 then (mark_offer_sent sent.2 a.dest now, eff)
    else (sent.2, eff)

/-- The mail-handling half of one cycle: the automatic settlement pass
followed by the fallback decision, on the same working mailbox, exactly
as `ciclo_autonomo` sequences them. -/
def ciclo_mails (cfg : Config) (rand : RandSrc) (now : ℚ) (lim : LimiterState)
    (estado : InfoPuesto) (gente : List Str) (mails : Mailbox) :
    Except Unit (Decision × Mailbox × List Effect) :=
  let auto := procesar_mails_automaticos cfg estado.Recursos mails
  match decidir_fallback cfg rand now lim estado gente auto.1 with
  | .ok (d, m2, eff2) => .ok (d, m2, auto.2 ++ eff2)
  | .error e => .error e

/-- The action of a successful mail-handling run, for stating scenarios. -/
def accionDe (r : Except Unit (Decision × Mailbox × List Effect)) : Option Accion :=
  match r with
  | .ok (d, _, _) => some d.accion
  | .error _ => none

/-!  ## Basic lemmas -/

theorem tsGet_tsSet_self (m : TsDict) (k : Str) (v : ℚ) :
    tsGet (tsSet m k v) k = some v := by
  induction m with
  | nil => simp [tsGet, tsSet]
  | cons p m ih =>
    by_cases hp : p.1 = k
    · simp [tsGet, tsSet, hp]
    · by_cases hm : m.any (fun q => q.1 = k)
      · have hset : tsSet (p :: m) k v = p :: tsSet m k v := by
          simp [tsSet, hp, hm]
        rw [hset]
        simpa [tsGet, hp] using ih
      · have hset : tsSet (p :: m) k v = p :: (m ++ [(k, v)]) := by
          simp [tsSet, hp, hm]
        rw [hset]
        simpa [tsGet, tsSet, hp, hm] using ih

/-- C7: for resources `{madera: 5, oro: 10}` and objective `{madera: 8}`,
the shortfalls are exactly `{madera: 3}` and the surpluses are empty
(`oro` is excluded as the currency item and nothing else is in excess). -/
theorem c7_scenario_shortfall_surplus :
    faltantes ⟨[("madera".toList, 5), ("oro".toList, 10)], [("madera".toList, 8)]⟩
      = [("madera".toList, 3)] ∧
    excedentes ⟨[("madera".toList, 5), ("oro".toList, 10)], [("madera".toList, 8)]⟩
      = [] := by
  decide

theorem fallbackOffer_ok (t : Str) : ∃ r, fallbackOffer t = .ok r := by
  unfold fallbackOffer
  rcases searchOfferFallback t with _ | ⟨d1, it1, d2, it2⟩
  · exact ⟨_, rfl⟩
  · exact ⟨_, rfl⟩

/-- C2: on every input text the two decoders return normally (`.ok`): the
only fallible operation, `json.loads`, sits inside a `try/except` whose
handler falls back to the prose pattern (offers) or to `None`
(acceptances), so no exception escapes. -/
theorem c2_decoders_never_raise (texto : Str) :
    (∃ r, parse_offer_from_textE texto = .ok r) ∧
    (∃ r, parse_accept_from_textE texto = .ok r) := by
  constructor
  · unfold parse_offer_from_textE
    rcases hs : searchTagOffer texto with _ | ⟨g1, g2⟩
    · exact fallbackOffer_ok texto
    · rcases h1 : json_loads g1 with _ | q
      · simpa [h1] using fallbackOffer_ok texto
      · rcases h2 : json_loads g2 with _ | o
        · simpa [h1, h2] using fallbackOffer_ok texto
        · exact ⟨some (q, o), by simp [h1, h2]⟩
  · unfold parse_accept_from_textE
    rcases hs : searchTagAccept texto with _ | ⟨g1, g2⟩
    · exact ⟨_, rfl⟩
    · rcases h1 : json_loads g1 with _ | q
      · exact ⟨none, by simp [h1]⟩
      · rcases h2 : json_loads g2 with _ | o
        · exact ⟨none, by simp [h1, h2]⟩
        · exact ⟨some (q, o), by simp [h1, h2]⟩

/-!  ## C4: per-destination cooldown after `mark_offer_sent` -/

/-- The blacklist check of `can_send_offer_now` passes for `dest` at
`now`: no unexpired `BAD_DEST_UNTIL` entry. -/
def blacklistPass (st : LimiterState) (dest : Str) (now : ℚ) : Prop :=
  ∀ b, tsGet st.badDestUntil dest = some b → b ≤ now

/-- C4: after `mark_offer_sent(dest)` at time `t`, and provided `dest` is
not blacklisted at the query time and the global window is no longer than
the per-destination window (so the global cooldown has elapsed whenever
the per-destination one has), `can_send_offer_now(dest)` at time `now` is
true exactly when `t + perDestCooldown ≤ now`: false at `t`, false
strictly before `t + perDestCooldown` (in particular at
`t + perDestCooldown - 1`), true at exactly `t + perDestCooldown`. -/
theorem c4_cooldown_after_mark (cfg : Config) (st : LimiterState) (dest : Str)
    (t now : ℚ) (hbl : blacklistPass st dest now)
    (hge : cfg.offerCooldownGlobal ≤ cfg.offerCooldownPerDest) :
    can_send_offer_now cfg (mark_offer_sent st dest t) dest now
      = decide (t + cfg.offerCooldownPerDest ≤ now) := by
  unfold can_send_offer_now mark_offer_sent
  simp only [tsGet_tsSet_self, Option.getD_some]
  rcases hb : tsGet st.badDestUntil dest with _ | b
  · simp only [hb]
    by_cases hc : t + cfg.offerCooldownPerDest ≤ now
    · rw [if_neg, if_neg, if_neg] <;> simp [hc] <;> linarith
    · simp only [decide_eq_false hc]
      by_cases hg : now - t < cfg.offerCooldownGlobal
      · simp [hg]
      · rw [if_neg (by simp), if_neg (by simpa using hg), if_pos (by linarith)]
  · have hble := hbl b hb
    simp only [hb]
    rw [if_neg (by simp; linarith)]
    by_cases hc : t + cfg.offerCooldownPerDest ≤ now
    · rw [if_neg, if_neg] <;> simp [hc] <;> linarith
    · simp only [decide_eq_false hc]
      by_cases hg : now - t < cfg.offerCooldownGlobal
      · simp [hg]
      · rw [if_neg (by simpa using hg), if_pos (by linarith)]

/-- Witness for C4 at concrete values: default windows 25/10, a send to
"p2" marked at t = 5, an empty blacklist, queried at t + 25 = 30. -/
theorem c4_cooldown_after_mark_witness :
    can_send_offer_now ⟨true, 20, false, false, 25, 10, 60, "a".toList⟩
        (mark_offer_sent ⟨0, [], []⟩ "p2".toList 5) "p2".toList 30
      = decide ((5 : ℚ) + 25 ≤ 30) :=
  c4_cooldown_after_mark ⟨true, 20, false, false, 25, 10, 60, "a".toList⟩
    ⟨0, [], []⟩ "p2".toList 5 30
    (by intro b hb; simp [tsGet] at hb) (by norm_num)

/-!  ## C10: a failed offer send leaves the cooldowns untouched and
blacklists the destination -/

/-- C10: in the `ofertar` branch of `ejecutar_decision`, when the field
guard and the rate-limiter re-check pass but `enviar_carta` fails (a
transport exception or a non-200 status), `mark_offer_sent` is not
reached: the global and per-destination send timestamps are unchanged,
and the destination is blacklisted until `now + badDestSeconds`. -/
theorem c10_failed_send_frame (cfg : Config) (lim : LimiterState) (now : ℚ)
    (a : OfertarFields) (resp : Option Nat)
    (hfields : ¬(a.dest = [] ∨ a.need_recurso = [] ∨ a.offer_recurso = []
        ∨ a.need_cantidad ≤ 0 ∨ a.offer_cantidad ≤ 0))
    (hcan : can_send_offer_now cfg lim a.dest now = true)
    (hfail : resp ≠ some 200) :
    (ejecutar_ofertar cfg lim now a resp).1.lastOfferTsGlobal = lim.lastOfferTsGlobal ∧
    (ejecutar_ofertar cfg lim now a resp).1.lastOfferTsDest = lim.lastOfferTsDest ∧
    tsGet (ejecutar_ofertar cfg lim now a resp).1.badDestUntil a.dest
      = some (now + cfg.badDestSeconds) := by
  unfold ejecutar_ofertar
  rw [if_neg hfields, if_neg (by simp [hcan])]
  rcases resp with _ | status
  · simp [enviar_carta, tsGet_tsSet_self]
  · have hs : status ≠ 200 := by rintro rfl; exact hfail rfl
    simp [enviar_carta, hs, tsGet_tsSet_self]

/-- Witness for C10: a concrete failing send (HTTP 500) to "p2". -/
theorem c10_failed_send_frame_witness :
    (ejecutar_ofertar ⟨true, 20, false, false, 25, 10, 60, "a".toList⟩
        ⟨0, [], []⟩ 100 ⟨"p2".toList, "madera".toList, 1, "piedra".toList, 1⟩
        (some 500)).1.lastOfferTsGlobal = (0 : ℚ) ∧
    (ejecutar_ofertar ⟨true, 20, false, false, 25, 10, 60, "a".toList⟩
        ⟨0, [], []⟩ 100 ⟨"p2".toList, "madera".toList, 1, "piedra".toList, 1⟩
        (some 500)).1.lastOfferTsDest = [] ∧
    tsGet (ejecutar_ofertar ⟨true, 20, false, false, 25, 10, 60, "a".toList⟩
        ⟨0, [], []⟩ 100 ⟨"p2".toList, "madera".toList, 1, "piedra".toList, 1⟩
        (some 500)).1.badDestUntil "p2".toList = some ((100 : ℚ) + 60) :=
  c10_failed_send_frame ⟨true, 20, false, false, 25, 10, 60, "a".toList⟩
    ⟨0, [], []⟩ 100 ⟨"p2".toList, "madera".toList, 1, "piedra".toList, 1⟩
    (some 500) (by decide) (by norm_num [can_send_offer_now, tsGet]) (by decide)

/-!  ## C6: mailbox capacity enforcement -/

theorem foldl_popKey_eq_filter (ks : List Str) (m : Mailbox) :
    ks.foldl popKey m = m.filter (fun p => decide (p.1 ∉ ks)) := by
  induction ks generalizing m with
  | nil => simp
  | cons k ks ih =>
    rw [List.foldl_cons]
    show ks.foldl popKey (popKey m k) = _
    rw [ih, popKey, List.filter_filter]
    apply List.filter_congr
    intro p _
    by_cases h1 : p.1 = k <;> by_cases h2 : p.1 ∈ ks <;>
      simp [h1, h2, List.mem_cons]

/-- C6: the capacity-enforcement step of the engine, run with cleaning on
and maximum `n`, always leaves at most `n` entries in the working mailbox
(every id beyond the first `n` in iteration order is deleted; a box not
exceeding `n` is untouched). -/
theorem c6_capacity_bound (m : Mailbox) (n : Nat) :
    (enforceCapacity true n m).1.length ≤ n := by
  unfold enforceCapacity
  split
  case isTrue h =>
    simp only
    rw [foldl_popKey_eq_filter]
    have hsplit := List.take_append_drop n m
    calc (m.filter (fun p => decide (p.1 ∉ (m.map Prod.fst).drop n))).length
        = ((m.take n ++ m.drop n).filter
            (fun p => decide (p.1 ∉ (m.map Prod.fst).drop n))).length := by rw [hsplit]
      _ = ((m.take n).filter (fun p => decide (p.1 ∉ (m.map Prod.fst).drop n))).length
          + ((m.drop n).filter (fun p => decide (p.1 ∉ (m.map Prod.fst).drop n))).length := by
            rw [List.filter_append, List.length_append]
      _ ≤ n + 0 := by
            apply Nat.add_le_add
            · exact le_trans (List.length_filter_le _ _) (by simp [List.length_take])
            · apply Nat.le_of_eq
              rw [List.length_eq_zero]
              rw [List.filter_eq_nil_iff]
              intro p hp
              have : p.1 ∈ (m.map Prod.fst).drop n := by
                rw [← List.map_drop]
                exact List.mem_map_of_mem Prod.fst hp
              simp [this]
      _ = n := Nat.add_zero n
  case isFalse h =>
    simp only [not_and, not_lt] at h
    simpa using h trivial

/-!  ## C5: the global cooldown dominates -/

/-- The configuration induced by the default environment: cleaning on,
at most 20 mails, no test overrides, cooldowns 25/10, blacklist 60s. -/
def cfgDefault : Config :=
  ⟨true, 20, false, false, 25, 10, 60, "fdi-pln-2612".toList⟩

/-- A concrete randomness source (identity shuffle, first-element
choices). -/
def rand0 : RandSrc := ⟨id, fun l => l.headD [], fun l => l.headD []⟩

/-- C5: if the time since the last global send is strictly below the
global cooldown, `can_send_offer_now` is false for every destination —
blacklisted or not, with or without per-destination history — and
consequently, whenever the incoming-offer scan produces no acceptance,
`decidir_fallback` returns the `esperar` (Wait) decision. -/
theorem c5_global_cooldown_dominates (cfg : Config) (rand : RandSrc) (now : ℚ)
    (lim : LimiterState) (estado : InfoPuesto) (gente : List Str) (mails : Mailbox)
    (m2 : Mailbox) (eff2 : List Effect)
    (hglob : now - lim.lastOfferTsGlobal < cfg.offerCooldownGlobal)
    (hscan : scanLoop cfg estado (faltantes estado)
        (enforceCapacity cfg.cleanInbox cfg.maxMails mails).1
        (enforceCapacity cfg.cleanInbox cfg.maxMails mails).1 []
      = .ok (none, m2, eff2)) :
    (∀ dest, can_send_offer_now cfg lim dest now = false) ∧
    accionDe (decidir_fallback cfg rand now lim estado gente mails)
      = some .esperar := by
  have hall : ∀ dest, can_send_offer_now cfg lim dest now = false := by
    intro dest
    unfold can_send_offer_now
    split <;> simp [hglob]
  refine ⟨hall, ?_⟩
  have hfind : ∀ (l : List Str),
      l.find? (fun cand => can_send_offer_now cfg lim cand now) = none := by
    intro l
    rw [List.find?_eq_none]
    intro x _
    simp [hall x]
  simp only [decidir_fallback, hscan, hfind]
  split <;> simp [accionDe]

/-- Witness for C5: last global send at 100, queried at 105 < 100 + 10,
empty mailbox, one available peer. -/
theorem c5_global_cooldown_dominates_witness :
    (∀ dest, can_send_offer_now cfgDefault ⟨100, [], []⟩ dest 105 = false) ∧
    accionDe (decidir_fallback cfgDefault rand0 105 ⟨100, [], []⟩
        ⟨[], []⟩ ["p2".toList] []) = some .esperar :=
  c5_global_cooldown_dominates cfgDefault rand0 105 ⟨100, [], []⟩
    ⟨[], []⟩ ["p2".toList] [] [] [] (by norm_num [cfgDefault]) rfl

/-!  ## Fold lemmas for the automatic settlement pass -/

/-- Each settlement step either keeps the working mailbox or pops one id,
so it never adds entries. -/
theorem procesarStep_mailbox_sub (cfg : Config) (recursos : PyDict)
    (acc : Mailbox × List Effect) (e : Str × Mail) :
    ∀ x ∈ (procesarStep cfg recursos acc e).1, x ∈ acc.1 := by
  intro x hx
  simp only [procesarStep, popKey] at hx
  repeat' split at hx
  all_goals first
    | exact hx
    | exact (List.mem_filter.mp hx).1

/-- Each settlement step only appends to the effect list. -/
theorem procesarStep_effects_mono (cfg : Config) (recursos : PyDict)
    (acc : Mailbox × List Effect) (e : Str × Mail) :
    ∀ x ∈ acc.2, x ∈ (procesarStep cfg recursos acc e).2 := by
  intro x hx
  simp only [procesarStep]
  repeat' split
  all_goals simp [hx]

theorem procesar_foldl_not_key (cfg : Config) (recursos : PyDict)
    (l : List (Str × Mail)) (acc : Mailbox × List Effect) (k : Str)
    (h : ∀ x ∈ acc.1, x.1 ≠ k) :
    ∀ x ∈ (l.foldl (procesarStep cfg recursos) acc).1, x.1 ≠ k := by
  induction l generalizing acc with
  | nil => exact h
  | cons e l ih =>
    rw [List.foldl_cons]
    exact ih _ (fun x hx => h x (procesarStep_mailbox_sub cfg recursos acc e x hx))

theorem procesar_foldl_effects_mem (cfg : Config) (recursos : PyDict)
    (l : List (Str × Mail)) (acc : Mailbox × List Effect) (x : Effect)
    (h : x ∈ acc.2) :
    x ∈ (l.foldl (procesarStep cfg recursos) acc).2 := by
  induction l generalizing acc with
  | nil => exact h
  | cons e l ih =>
    rw [List.foldl_cons]
    exact ih _ (procesarStep_effects_mono cfg recursos acc e x h)

theorem popKey_not_key (m : Mailbox) (k : Str) : ∀ x ∈ popKey m k, x.1 ≠ k := by
  intro x hx
  simpa using (List.mem_filter.mp hx).2

/-!  ## C8: system-sender mail -/

/-- C8 (amended): when cleanup mode is active, a mailbox entry whose
(stripped, lowercased) sender is the reserved identity "sistema" is
handled by the automatic pass without ever inspecting its subject or
body — the step's result is the same deletion for every `mail.cuerpo` —
and after the pass the entry is gone from the working mailbox, so the
proactive offer scan never sees it.  (Without cleanup the entry survives
the automatic pass and the proactive scan does decode its body; see the
counterexample.) -/
theorem c8_system_mail_cleanup (cfg : Config) (recursos : PyDict)
    (mails : Mailbox) (mid : Str) (mail : Mail) (acc : Mailbox × List Effect)
    (hclean : cfg.cleanInbox = true)
    (hsys : pyLower (pyStrip mail.remi) = "sistema".toList)
    (hmem : (mid, mail) ∈ mails) :
    procesarStep cfg recursos acc (mid, mail)
      = (popKey acc.1 mid, acc.2 ++ [.borrar mid]) ∧
    ∀ x ∈ (procesar_mails_automaticos cfg recursos mails).1, x.1 ≠ mid := by
  have hstep : ∀ acc2 : Mailbox × List Effect,
      procesarStep cfg recursos acc2 (mid, mail)
        = (popKey acc2.1 mid, acc2.2 ++ [.borrar mid]) := by
    intro acc2
    simp [procesarStep, hsys, hclean]
  refine ⟨hstep acc, ?_⟩
  obtain ⟨s, t, rfl⟩ := List.append_of_mem hmem
  unfold procesar_mails_automaticos
  rw [List.foldl_append, List.foldl_cons, hstep]
  exact procesar_foldl_not_key cfg recursos t _ mid (popKey_not_key _ mid)

/-- Witness for C8 (amended), at a concrete system mail. -/
theorem c8_system_mail_cleanup_witness :
    procesarStep cfgDefault [] (([("m1".toList, ⟨"sistema".toList, "aviso".toList, "hola".toList⟩)], []))
        ("m1".toList, ⟨"sistema".toList, "aviso".toList, "hola".toList⟩)
      = (popKey [("m1".toList, ⟨"sistema".toList, "aviso".toList, "hola".toList⟩)] "m1".toList,
         [] ++ [.borrar "m1".toList]) ∧
    ∀ x ∈ (procesar_mails_automaticos cfgDefault []
        [("m1".toList, ⟨"sistema".toList, "aviso".toList, "hola".toList⟩)]).1,
      x.1 ≠ "m1".toList :=
  c8_system_mail_cleanup cfgDefault []
    [("m1".toList, ⟨"sistema".toList, "aviso".toList, "hola".toList⟩)]
    "m1".toList ⟨"sistema".toList, "aviso".toList, "hola".toList⟩
    ([("m1".toList, ⟨"sistema".toList, "aviso".toList, "hola".toList⟩)], [])
    (by decide) (by decide) (by decide)

/-- The default configuration with cleanup disabled (`FDI_PLN__CLEAN_INBOX=0`). -/
def cfgNoClean : Config :=
  ⟨false, 20, false, false, 25, 10, 60, "fdi-pln-2612".toList⟩

/-- A tagged offer body carried by a mail whose sender is "sistema". -/
def sysOfferBody : Str :=
  "[OFERTA_V1] quiero=\x7b\"madera\": 1\x7d ofrezco=\x7b\"piedra\": 1\x7d".toList

def estadoC8 : InfoPuesto := ⟨[("madera".toList, 2)], [("piedra".toList, 3)]⟩

def mailboxC8 (cuerpo : Str) : Mailbox :=
  [("m1".toList, ⟨"sistema".toList, "aviso".toList, cuerpo⟩)]

/-- C8 counterexample: with cleanup inactive, the cycle's mail handling
does pass the system mail's body to offer decoding — the decision depends
on that body, and an offer body from "sistema" is even accepted by the
proactive scan (decision `aceptar m1`), while an empty body yields
`esperar`. -/
theorem c8_counterexample :
    accionDe (ciclo_mails cfgNoClean rand0 0 ⟨0, [], []⟩ estadoC8 []
        (mailboxC8 sysOfferBody)) = some (.aceptar "m1".toList) ∧
    accionDe (ciclo_mails cfgNoClean rand0 0 ⟨0, [], []⟩ estadoC8 []
        (mailboxC8 [])) = some .esperar := by
  decide

/-!  ## C9: settlement of decoded acceptances -/

/-- The settlement step on an entry decodable as an acceptance from a
non-system, non-empty sender: ship the expected resources and confirm
when holdings cover them, otherwise decline; delete the entry only when
cleanup is active. -/
theorem procesarStep_accept (cfg : Config) (recursos : PyDict)
    (acc : Mailbox × List Effect) (mid : Str) (mail : Mail) (te esp : PyDict)
    (hsys : pyLower (pyStrip mail.remi) ≠ "sistema".toList)
    (hremi : pyStrip mail.remi ≠ [])
    (hacc : parse_accept_from_text (pyStrip mail.cuerpo) = some (te, esp)) :
    procesarStep cfg recursos acc (mid, mail) =
      (if cfg.cleanInbox then popKey acc.1 mid else acc.1,
       (acc.2 ++
         (if esp.all (fun p => decide (¬(dget recursos p.1 0 < p.2))) then
            [.paquete (pyStrip mail.remi) esp,
             .carta (pyStrip mail.remi) "Envío".toList (.listo esp)]
          else [.carta (pyStrip mail.remi) "No puedo".toList (.noTengo esp)]))
         ++ (if cfg.cleanInbox then [.borrar mid] else [])) := by
  simp only [procesarStep, hacc]
  rw [if_neg hsys]
  rw [if_pos hremi]
  split <;> split <;> simp

/-- C9 (amended): in the automatic pass, every mailbox entry decodable as
an acceptance from a non-system, non-empty sender triggers exactly the
settlement the source performs — a resource transfer plus a confirmation
letter when current holdings cover everything the peer expects, a decline
letter otherwise — and, when cleanup mode is enabled, the entry is then
removed from the working mailbox.  (Without cleanup the entry is settled
but kept; see the counterexample.) -/
theorem c9_accept_settlement (cfg : Config) (recursos : PyDict) (mails : Mailbox)
    (mid : Str) (mail : Mail) (te esp : PyDict)
    (hmem : (mid, mail) ∈ mails)
    (hsys : pyLower (pyStrip mail.remi) ≠ "sistema".toList)
    (hremi : pyStrip mail.remi ≠ [])
    (hacc : parse_accept_from_text (pyStrip mail.cuerpo) = some (te, esp)) :
    (esp.all (fun p => decide (¬(dget recursos p.1 0 < p.2))) = true →
       Effect.paquete (pyStrip mail.remi) esp
           ∈ (procesar_mails_automaticos cfg recursos mails).2 ∧
       Effect.carta (pyStrip mail.remi) "Envío".toList (.listo esp)
           ∈ (procesar_mails_automaticos cfg recursos mails).2) ∧
    (esp.all (fun p => decide (¬(dget recursos p.1 0 < p.2))) = false →
       Effect.carta (pyStrip mail.remi) "No puedo".toList (.noTengo esp)
           ∈ (procesar_mails_automaticos cfg recursos mails).2) ∧
    (cfg.cleanInbox = true →
       ∀ x ∈ (procesar_mails_automaticos cfg recursos mails).1, x.1 ≠ mid) := by
  obtain ⟨s, t, rfl⟩ := List.append_of_mem hmem
  unfold procesar_mails_automaticos
  rw [List.foldl_append, List.foldl_cons,
    procesarStep_accept cfg recursos _ mid mail te esp hsys hremi hacc]
  refine ⟨?_, ?_, ?_⟩
  · intro hok
    constructor <;>
      (refine procesar_foldl_effects_mem cfg recursos t _ _ ?_;
       rw [List.append_assoc]
       refine List.mem_append_right _ ?_
       rw [if_pos hok]
       simp)
  · intro hok
    refine procesar_foldl_effects_mem cfg recursos t _ _ ?_
    rw [List.append_assoc]
    refine List.mem_append_right _ ?_
    rw [if_neg (by rw [hok]; exact Bool.false_ne_true)]
    simp
  · intro hclean
    refine procesar_foldl_not_key cfg recursos t _ mid ?_
    intro x hx
    rw [if_pos hclean] at hx
    exact popKey_not_key _ mid x hx

/-- A concrete acceptance letter from peer "p2". -/
def acceptBodyC9 : Str :=
  "[ACEPTO_V1] te_envio=\x7b\"piedra\": 1\x7d espero=\x7b\"madera\": 2\x7d".toList

def mailC9 : Mail := ⟨"p2".toList, "acepto".toList, acceptBodyC9⟩

/-- Witness for C9 (amended): holdings `{madera: 5}` cover the expected
`{madera: 2}`, so the transfer and the confirmation are emitted, and with
the default cleaning configuration the entry is removed. -/
theorem c9_accept_settlement_witness :
    (([("madera".toList, 2)] : PyDict).all
        (fun p => decide (¬(dget [("madera".toList, 5)] p.1 0 < p.2))) = true →
       Effect.paquete (pyStrip mailC9.remi) [("madera".toList, 2)]
           ∈ (procesar_mails_automaticos cfgDefault [("madera".toList, 5)]
               [("m1".toList, mailC9)]).2 ∧
       Effect.carta (pyStrip mailC9.remi) "Envío".toList (.listo [("madera".toList, 2)])
           ∈ (procesar_mails_automaticos cfgDefault [("madera".toList, 5)]
               [("m1".toList, mailC9)]).2) ∧
    (([("madera".toList, 2)] : PyDict).all
        (fun p => decide (¬(dget [("madera".toList, 5)] p.1 0 < p.2))) = false →
       Effect.carta (pyStrip mailC9.remi) "No puedo".toList (.noTengo [("madera".toList, 2)])
           ∈ (procesar_mails_automaticos cfgDefault [("madera".toList, 5)]
               [("m1".toList, mailC9)]).2) ∧
    (cfgDefault.cleanInbox = true →
       ∀ x ∈ (procesar_mails_automaticos cfgDefault [("madera".toList, 5)]
           [("m1".toList, mailC9)]).1, x.1 ≠ "m1".toList) :=
  c9_accept_settlement cfgDefault [("madera".toList, 5)] [("m1".toList, mailC9)]
    "m1".toList mailC9 [("piedra".toList, 1)] [("madera".toList, 2)]
    (by decide) (by decide) (by decide) (by decide)

/-- C9 counterexample: with cleanup disabled the acceptance is settled
(transfer and confirmation emitted) yet the entry is NOT removed from the
mailbox, refuting the claim's unconditional "in either case the entry is
then removed". -/
theorem c9_counterexample :
    (procesar_mails_automaticos cfgNoClean [("madera".toList, 5)]
        [("m1".toList, mailC9)]).1 = [("m1".toList, mailC9)] ∧
    (procesar_mails_automaticos cfgNoClean [("madera".toList, 5)]
        [("m1".toList, mailC9)]).2
      = [.paquete "p2".toList [("madera".toList, 2)],
         .carta "p2".toList "Envío".toList (.listo [("madera".toList, 2)])] := by
  decide

/-!  ## C3: normalization of decoded offers -/

/-- The property C3 asserts of every decoded offer: lowercase item names
and quantities at least 1. -/
def offerNormalized (r : PyDict × PyDict) : Prop :=
  ∀ p ∈ r.1 ++ r.2, pyLower p.1 = p.1 ∧ 1 ≤ p.2

/-- A tagged offer whose JSON carries a capitalized item name and a zero
quantity. -/
def c3Input : Str :=
  "[OFERTA_V1] quiero=\x7b\"Piedra\": 0\x7d ofrezco=\x7b\"madera\": 2\x7d".toList

/-- C3 counterexample: the tagged decoding path returns the parsed JSON
objects verbatim — the item name "Piedra" is not lowercased and the
quantity 0 is not rejected. -/
theorem c3_counterexample :
    parse_offer_from_text c3Input
      = some ([("Piedra".toList, 0)], [("madera".toList, 2)]) ∧
    ¬ offerNormalized ([("Piedra".toList, 0)], [("madera".toList, 2)]) := by
  constructor
  · decide
  · unfold offerNormalized
    decide

theorem pyLowerChar_idem (c : Char) :
    pyLowerChar (pyLowerChar c) = pyLowerChar c := by
  rcases h : lowerPairs.find? (fun p => p.1 = c) with _ | p
  · have hx : pyLowerChar c = c := by simp [pyLowerChar, h]
    rw [hx, hx]
  · have hx : pyLowerChar c = p.2 := by simp [pyLowerChar, h]
    have hp : p ∈ lowerPairs := List.mem_of_find?_eq_some h
    rw [hx]
    simp only [lowerPairs] at hp
    fin_cases hp <;> decide

theorem pyLower_idem (s : Str) : pyLower (pyLower s) = pyLower s := by
  simp only [pyLower, List.map_map]
  apply List.map_congr_left
  intro c _
  exact pyLowerChar_idem c

/-- C3 (amended): only the natural-language fallback normalizes its
result — when `parse_offer_from_text` answers through `OFFER_RE`, each
side is a one-entry dict whose item name is lowercase (a fixed point of
`str.lower()`) and whose quantity is a nonnegative integer.  The tagged
path returns the JSON objects as parsed, with no case normalization and
no quantity validation (see the counterexample; a prose offer can also
carry quantity 0, so even the fallback guarantees only nonnegativity). -/
theorem c3_fallback_normalized (t : Str) (q o : PyDict)
    (hfb : fallbackOffer t = .ok (some (q, o))) :
    ∃ n1 v1 n2 v2, q = [(n1, v1)] ∧ o = [(n2, v2)]
      ∧ pyLower n1 = n1 ∧ pyLower n2 = n2 ∧ 0 ≤ v1 ∧ 0 ≤ v2 := by
  unfold fallbackOffer at hfb
  rcases h : searchOfferFallback t with _ | ⟨d1, it1, d2, it2⟩ <;> rw [h] at hfb
  · exact absurd hfb (by simp)
  · simp only [Except.ok.injEq, Option.some.injEq, Prod.mk.injEq] at hfb
    obtain ⟨hq, ho⟩ := hfb
    refine ⟨pyLower it1, (digitsVal d1 : Int), pyLower it2, (digitsVal d2 : Int),
      hq.symm, ho.symm, pyLower_idem it1, pyLower_idem it2, ?_, ?_⟩
    · exact Int.natCast_nonneg _
    · exact Int.natCast_nonneg _

/-- Witness for C3 (amended) on a concrete prose offer: "necesito 2
Madera y ofrezco 1 piedra" decodes to lowercase names and nonnegative
quantities. -/
theorem c3_fallback_normalized_witness :
    ∃ n1 v1 n2 v2,
      ([(("madera").toList, (2 : Int))] : PyDict) = [(n1, v1)]
      ∧ ([(("piedra").toList, (1 : Int))] : PyDict) = [(n2, v2)]
      ∧ pyLower n1 = n1 ∧ pyLower n2 = n2 ∧ 0 ≤ v1 ∧ 0 ≤ v2 :=
  c3_fallback_normalized "necesito 2 Madera y ofrezco 1 piedra".toList
    [("madera".toList, 2)] [("piedra".toList, 1)] (by rfl)

/-!  ## C1: offer round-trip through the codec.  Supporting lemmas. -/

/-- The alphabet of valid item names: ASCII letters and the accented
letters of the protocol's fallback pattern. -/
def goodChar (c : Char) : Bool :=
  c.isAlpha ∨ c ∈ ['á', 'é', 'í', 'ó', 'ú', 'ñ', 'Ñ', 'Á', 'É', 'Í', 'Ó', 'Ú']

/-- A valid (alphabetic, nonempty) item name. -/
def GoodName (s : Str) : Prop := s ≠ [] ∧ ∀ c ∈ s, goodChar c = true

theorem goodChar_props (c : Char) (h : goodChar c = true) :
    c ≠ '}' ∧ c ≠ '\n' ∧ c ≠ '"' ∧ c ≠ '\\' := by
  refine ⟨?_, ?_, ?_, ?_⟩ <;> (rintro rfl; revert h; decide)

def digitList : List Char := ['0', '1', '2', '3', '4', '5', '6', '7', '8', '9']

theorem digitChar_mem (d : Nat) : digitChar d ∈ digitList := by
  unfold digitChar
  split <;> decide

theorem natToDigits_mem (n : Nat) : ∀ c ∈ natToDigits n, c ∈ digitList := by
  induction n using Nat.strong_induction_on with
  | _ n ih =>
    rw [natToDigits]
    split
    · intro c hc
      simp only [List.mem_singleton] at hc
      subst hc
      exact digitChar_mem n
    · intro c hc
      rcases List.mem_append.mp hc with h1 | h2
      · exact ih (n / 10) (Nat.div_lt_self (by omega) (by omega)) c h1
      · simp only [List.mem_singleton] at h2
        subst h2
        exact digitChar_mem _

theorem digitList_props (c : Char) (h : c ∈ digitList) :
    Char.isDigit c = true ∧ isPySpace c = false ∧ isJsonWs c = false ∧
    c ≠ '}' ∧ c ≠ '\n' ∧ c ≠ '"' ∧ c ≠ '\\' ∧ c ≠ '-' := by
  simp only [digitList] at h
  fin_cases h <;> decide

theorem natToDigits_ne_nil (n : Nat) : natToDigits n ≠ [] := by
  rw [natToDigits]
  split <;> simp

theorem digitVal_digitChar (d : Nat) (h : d < 10) :
    digitVal (digitChar d) = d := by
  interval_cases d <;> decide

theorem digitsVal_append_last (s : Str) (c : Char) :
    digitsVal (s ++ [c]) = digitsVal s * 10 + digitVal c := by
  simp [digitsVal, List.foldl_append]

theorem digitsVal_natToDigits (n : Nat) : digitsVal (natToDigits n) = n := by
  induction n using Nat.strong_induction_on with
  | _ n ih =>
    rw [natToDigits]
    split
    · next h =>
      simp [digitsVal, digitVal_digitChar n h]
    · next h =>
      rw [digitsVal_append_last, ih (n / 10) (Nat.div_lt_self (by omega) (by omega)),
        digitVal_digitChar (n % 10) (Nat.mod_lt n (by omega))]
      omega

theorem takeWhile_all_append (p : Char → Bool) (xs : Str) (y : Char) (r : Str)
    (hxs : ∀ c ∈ xs, p c = true) (hy : p y = false) :
    (xs ++ y :: r).takeWhile p = xs ∧ (xs ++ y :: r).dropWhile p = y :: r := by
  induction xs with
  | nil => simp [List.takeWhile_cons, List.dropWhile_cons, hy]
  | cons c cs ih =>
    have hc := hxs c (by simp)
    have ihr := ih (fun d hd => hxs d (by simp [hd]))
    simp [List.takeWhile_cons, List.dropWhile_cons, hc, ihr.1, ihr.2]

theorem skipWs_cons_not (c : Char) (r : Str) (h : isJsonWs c = false) :
    skipWs (c :: r) = c :: r := by
  simp [skipWs, List.dropWhile_cons, h]

theorem skipWs_cons_ws (c : Char) (r : Str) (h : isJsonWs c = true) :
    skipWs (c :: r) = skipWs r := by
  simp [skipWs, List.dropWhile_cons, h]

theorem dropSpaces_cons_not (c : Char) (r : Str) (h : isPySpace c = false) :
    dropSpaces (c :: r) = c :: r := by
  simp [dropSpaces, List.dropWhile_cons, h]

theorem dropSpaces_cons_ws (c : Char) (r : Str) (h : isPySpace c = true) :
    dropSpaces (c :: r) = dropSpaces r := by
  simp [dropSpaces, List.dropWhile_cons, h]

theorem parseJStr_through (w r : Str) (hw : ∀ c ∈ w, c ≠ '"' ∧ c ≠ '\\') :
    parseJStr (w ++ '"' :: r) = some (w, r) := by
  induction w with
  | nil => simp [parseJStr]
  | cons c cs ih =>
    have hc := hw c (by simp)
    have ihr := ih (fun d hd => hw d (by simp [hd]))
    simp [parseJStr, hc.1, hc.2, ihr]

theorem matchLitCI_exact (p r : Str) : matchLitCI p (p ++ r) = some r := by
  induction p with
  | nil => rfl
  | cons c cs ih => simp [matchLitCI, ih]

theorem lazyToBrace_through {α : Type} (k : Str → Option α) (inner rest : Str) (a : α)
    (hinner : ∀ c ∈ inner, c ≠ '}' ∧ c ≠ '\n')
    (hk : k rest = some a) :
    lazyToBrace k (inner ++ '}' :: rest) = some (inner, a) := by
  induction inner with
  | nil => simp [lazyToBrace, hk]
  | cons c cs ih =>
    have hc := hinner c (by simp)
    have ihr := ih (fun d hd => hinner d (by simp [hd]))
    simp [lazyToBrace, hc.1, hc.2, ihr]

/-!  ## C1: assembling the round trip -/

theorem parseMembers_single (k : Str) (v : Nat) (fuel : Nat)
    (hk : ∀ c ∈ k, goodChar c = true) :
    parseMembersAux (fuel + 1) []
        ('"' :: (k ++ ('"' :: ':' :: ' ' :: (natToDigits v ++ ['}']))))
      = some ([(k, (v : Int))], []) := by
  have hkq : ∀ c ∈ k, c ≠ '"' ∧ c ≠ '\\' := fun c hc =>
    ⟨(goodChar_props c (hk c hc)).2.2.1, (goodChar_props c (hk c hc)).2.2.2⟩
  obtain ⟨d0, ds, hds⟩ := List.exists_cons_of_ne_nil (natToDigits_ne_nil v)
  have hmem0 : d0 ∈ digitList := natToDigits_mem v d0 (by rw [hds]; simp)
  obtain ⟨hdig0, hsp0, hws0, hbr0, hnl0, hq0, hbs0, hdash0⟩ := digitList_props d0 hmem0
  have hchunk : parseDigitsChunk (d0 :: (ds ++ ['}'])) = some (v, ['}']) := by
    have htw := takeWhile_all_append Char.isDigit (natToDigits v) '}' []
      (fun c hc => (digitList_props c (natToDigits_mem v c hc)).1) (by decide)
    rw [hds] at htw
    simp only [List.cons_append] at htw
    simp only [parseDigitsChunk, htw.1, htw.2]
    have hdv : digitsVal (d0 :: ds) = v := by rw [← hds, digitsVal_natToDigits]
    simp [hdv]
  have hjint : parseJInt (d0 :: (ds ++ ['}'])) = some ((v : Int), ['}']) := by
    unfold parseJInt
    rw [if_neg (by simp [hdash0])]
    rw [hchunk]
    rfl
  rw [parseMembersAux, skipWs_cons_not _ _ (by decide)]
  simp only [parseJStr_through k _ hkq]
  rw [skipWs_cons_not _ _ (by decide)]
  simp only [skipWs_cons_ws _ _ (show isJsonWs ' ' = true from by decide), hds,
    List.cons_append, skipWs_cons_not _ _ hws0, hjint]
  rw [skipWs_cons_not _ _ (by decide)]
  simp [dinsert]

theorem json_loads_dumps_single (k : Str) (v : Nat)
    (hk : ∀ c ∈ k, goodChar c = true) :
    json_loads (json_dumps_single k v) = .ok [(k, (v : Int))] := by
  unfold json_dumps_single json_loads
  rw [skipWs_cons_not _ _ (by decide)]
  simp only
  rw [skipWs_cons_not _ _ (by decide)]
  simp only [List.length_cons]
  rw [parseMembers_single k v _ hk]
  simp [skipWs]

theorem expectChar_self (c : Char) (xs : Str) : expectChar c (c :: xs) = some xs := by
  simp [expectChar]

theorem mem_inner_parts (w ds : Str) (c : Char)
    (hw : ∀ x ∈ w, goodChar x = true) (hds : ∀ x ∈ ds, x ∈ digitList)
    (hc : c ∈ ('"' :: (w ++ ('"' :: ':' :: ' ' :: ds)))) :
    c ≠ '}' ∧ c ≠ '\n' := by
  simp only [List.mem_cons, List.mem_append] at hc
  rcases hc with rfl | hc | rfl | rfl | rfl | hc
  · exact ⟨by decide, by decide⟩
  · exact ⟨(goodChar_props c (hw c hc)).1, (goodChar_props c (hw c hc)).2.1⟩
  · exact ⟨by decide, by decide⟩
  · exact ⟨by decide, by decide⟩
  · exact ⟨by decide, by decide⟩
  · exact ⟨(digitList_props c (hds c hc)).2.2.2.1, (digitList_props c (hds c hc)).2.2.2.2.1⟩

theorem tagOfferAt_build (w g : Str) (wq gq : Nat)
    (hw : ∀ c ∈ w, goodChar c = true) (hg : ∀ c ∈ g, goodChar c = true) :
    tagOfferAt (build_offer_body w wq g gq)
      = some (json_dumps_single w wq, json_dumps_single g gq) := by
  have hql : ∀ X : Str, dropSpaces ("quiero=".toList ++ X) = "quiero=".toList ++ X := by
    intro X
    rw [show ("quiero=".toList ++ X) = 'q' :: ("uiero=".toList ++ X) from rfl]
    rw [dropSpaces_cons_not _ _ (by decide)]
  have hol : ∀ X : Str, dropSpaces ("ofrezco=".toList ++ X) = "ofrezco=".toList ++ X := by
    intro X
    rw [show ("ofrezco=".toList ++ X) = 'o' :: ("frezco=".toList ++ X) from rfl]
    rw [dropSpaces_cons_not _ _ (by decide)]
  have hbody : build_offer_body w wq g gq
      = "[OFERTA_V1]".toList ++ (' ' :: ("quiero=".toList
        ++ ('{' :: (('"' :: (w ++ ('"' :: ':' :: ' ' :: natToDigits wq)))
          ++ ('}' :: (' ' :: ("ofrezco=".toList
            ++ ('{' :: (('"' :: (g ++ ('"' :: ':' :: ' ' :: natToDigits gq)))
              ++ ('}' :: ('\n' :: ("Necesito ".toList ++ (natToDigits wq
                ++ (' ' :: (w ++ (" y ofrezco ".toList ++ (natToDigits gq
                  ++ (' ' :: (g ++ ['.']))))))))))))))))))) := by
    simp [build_offer_body, json_dumps_single,
      show (" ofrezco=".toList : Str) = ' ' :: "ofrezco=".toList from rfl,
      show ("[OFERTA_V1] quiero=".toList : Str)
        = "[OFERTA_V1]".toList ++ (' ' :: "quiero=".toList) from rfl,
      List.append_assoc, List.cons_append]
  rw [hbody]
  unfold tagOfferAt
  rw [matchLitCI_exact, Option.some_bind]
  rw [dropSpaces_cons_ws _ _ (by decide), hql]
  rw [matchLitCI_exact, Option.some_bind]
  rw [expectChar_self, Option.some_bind]
  rw [lazyToBrace_through _ _ _
    ('"' :: (g ++ ('"' :: ':' :: ' ' :: natToDigits gq)))
    (mem_inner_parts w (natToDigits wq) · hw (natToDigits_mem wq) ·)
    (by
      rw [dropSpaces_cons_ws _ _ (by decide), hol]
      rw [matchLitCI_exact, Option.some_bind]
      rw [expectChar_self, Option.some_bind]
      rw [lazyToBrace_through (fun _ => some ()) _ _ ()
        (mem_inner_parts g (natToDigits gq) · hg (natToDigits_mem gq) ·) rfl]
      rfl)]
  simp [json_dumps_single, List.append_assoc]

theorem searchTagOffer_of_at (s : Str) (r : Str × Str) (h : tagOfferAt s = some r) :
    searchTagOffer s = some r := by
  cases s with
  | nil => rw [show tagOfferAt ([] : Str) = none from rfl] at h; cases h
  | cons c cs => simp [searchTagOffer, h]

/-- C1: for every valid offer — alphabetic (ASCII or accented) nonempty
item names and positive integer quantities — decoding the encoded body
recovers exactly the same item names and quantities:
`parse_offer_from_text (build_offer_body w wq g gq)` returns the pair of
one-entry dicts `({w: wq}, {g: gq})`, via the tagged `OFERTA_V1` path. -/
theorem c1_offer_roundtrip (w g : Str) (wq gq : Nat)
    (hw : GoodName w) (hg : GoodName g) (hwq : 0 < wq) (hgq : 0 < gq) :
    parse_offer_from_text (build_offer_body w wq g gq)
      = some ([(w, (wq : Int))], [(g, (gq : Int))]) := by
  have hsearch := searchTagOffer_of_at _ _ (tagOfferAt_build w g wq gq hw.2 hg.2)
  have hj1 := json_loads_dumps_single w wq hw.2
  have hj2 := json_loads_dumps_single g gq hg.2
  simp only [parse_offer_from_text, parse_offer_from_textE, hsearch, hj1, hj2]

/-- Witness for C1: the round trip at `madera`/3 against `piedra`/2. -/
theorem c1_offer_roundtrip_witness :
    parse_offer_from_text (build_offer_body "madera".toList 3 "piedra".toList 2)
      = some ([("madera".toList, (3 : Int))], [("piedra".toList, (2 : Int))]) :=
  c1_offer_roundtrip "madera".toList "piedra".toList 3 2
    ⟨by decide, by decide⟩ ⟨by decide, by decide⟩ (by decide) (by decide)
